import Mathlib

/-!
Blueprint command registry and bearer-token middleware.

A shallow embedding of `examples/blueprint/main.go` (the `Blueprint` registry with
`cleanName`, `AddMethod`, `CallMethod`) and of `examples/web_gin/main.go`
(`TokenAuthMiddleware` and the `/admin/secrets` route), with the properties their
specification states about them.

Go strings are modelled as Lean strings (sequences of Unicode code points), so a
prefix test on code points stands for the byte-wise one of the Go library. The gin
primitives (`GetHeader`, `JSON`, `Abort`, `Set`, `Get`, `Next`) belong to the web
framework and are modelled after its `Context` type.
-/

namespace GoLearn

/-! ## `cleanName` -/

/-- Perl character class `\w` of Go's `regexp/syntax`: exactly `[0-9A-Za-z_]`. -/
def perlWord (c : Char) : Bool :=
  ('0' ≤ c && c ≤ '9') || ('A' ≤ c && c ≤ 'Z') || c == '_' || ('a' ≤ c && c ≤ 'z')

/-- The compiled expression `[^\w]`: it matches exactly one rune, any rune that is
not in `\w`. -/
def reNotWord (c : Char) : Bool := !perlWord c

/-- Go `(*Regexp).ReplaceAllString` for an expression that matches single runes:
every matching rune is replaced by `repl` (a replacement text without `$`), every
other rune is copied. -/
def ReplaceAllString (re : Char → Bool) (src repl : String) : String :=
  ⟨(src.data.map fun c => if re c then repl.data else [c]).flatten⟩

/-- Go `unicode.ToLower` on one rune: the ASCII branch is the one of the Go source
(`'A' <= r && r <= 'Z'` adds `'a' - 'A'`); above ASCII the library consults its
case tables, taken here as the parameter `tbl`. -/
def runeToLower (tbl : Char → Char) (r : Char) : Char :=
  if r.toNat < 128 then
    (if 'A' ≤ r ∧ r ≤ 'Z' then Char.ofNat (r.toNat + 32) else r)
  else tbl r

/-- Go `strings.ToLower`: `unicode.ToLower` mapped over the runes of the string. -/
def ToLower (tbl : Char → Char) (s : String) : String :=
  ⟨s.data.map (runeToLower tbl)⟩

/-- Go `cleanName` of `blueprint/main.go`: delete what `[^\w]` matches, then lowercase. -/
def cleanName (tbl : Char → Char) (input : String) : String :=
  let cleaned := ReplaceAllString reNotWord input ""
  ToLower tbl cleaned

/-- The canonical form as the specification words it: keep the characters that are
ASCII `[A-Za-z0-9_]`, in order, and lowercase them (ASCII lowercasing). -/
def isAsciiWord (c : Char) : Bool :=
  c.isAlpha || c.isDigit || c == '_'

/-- Specification-side canonicalization, to be compared with `cleanName`. -/
def specCanonical (s : String) : String :=
  ⟨(s.data.filter isAsciiWord).map Char.toLower⟩

/-- The alphabet `[a-z0-9_]` of canonical names. -/
def isCanonChar (c : Char) : Bool :=
  c.isLower || c.isDigit || c == '_'

/-! ## The `Blueprint` registry -/

/-- How a Go call ends: it returns a value, or it panics with a cause
(an `interface{}`: `nil` or a dynamic value). -/
inductive Outcome (V α : Type) where
  | returned (a : α)
  | panicked (cause : Option V)

/-- Go's `error`: `nil` (`none`) or an error value carrying its message. -/
abbrev GoError := Option String

/-- A registered method `func(args Dict) interface{}`. `D` is the type of argument
bags (`Dict`), `Option V` the type `interface{}` (`nil` or a dynamic value), and
`σ` whatever the method can observe and change outside the registry; running the
method either returns or panics. -/
abbrev Method (σ D V : Type) := D → σ → Outcome V (Option V) × σ

/-- Go `Blueprint`: the `methods` map, from key to method. -/
structure Blueprint (σ D V : Type) where
  methods : String → Option (Method σ D V)

/-- Go `NewBlueprint`: an empty `methods` map. -/
def NewBlueprint {σ D V : Type} : Blueprint σ D V :=
  ⟨fun _ => none⟩

/-- Go `AddMethod`: `bp.methods[cleanName(name)] = method`. -/
def AddMethod {σ D V : Type} (tbl : Char → Char) (bp : Blueprint σ D V) (name : String)
    (method : Method σ D V) : Blueprint σ D V :=
  ⟨fun k => if k = cleanName tbl name then some method else bp.methods k⟩

/-- Go `fmt.Errorf("method %s not found", name)`: the message of the error value. -/
def Errorf (name : String) : String :=
  "method " ++ name ++ " not found"

/-- Go `CallMethod`: look `name` up in `methods` as it is given; when present run the
method and return `(fn(args), nil)`, a panic of the method passing through
(the function has no `recover`); when absent return `(nil, error)`. -/
def CallMethod {σ D V : Type} (bp : Blueprint σ D V) (name : String) (args : D) (w : σ) :
    Outcome V (Option V × GoError) × σ :=
  match bp.methods name with
  | some fn =>
    match fn args w with
    | (Outcome.returned v, w1) => (Outcome.returned (v, none), w1)
    | (Outcome.panicked cause, w1) => (Outcome.panicked cause, w1)
  | none => (Outcome.returned (none, some (Errorf name)), w)

/-- A finite sequence of `AddMethod` calls, applied in order. -/
def addAll {σ D V : Type} (tbl : Char → Char) (bp : Blueprint σ D V) :
    List (String × Method σ D V) → Blueprint σ D V
  | [] => bp
  | (name, method) :: rest => addAll tbl (AddMethod tbl bp name method) rest

/-- The six predefined methods of `main.go`, each
`fmt.Sprintf("<Label> called with args: %v", args)`; `sprintV` is `%v` on a `Dict`. -/
def predefined {σ D : Type} (label : String) (sprintV : D → String) : Method σ D String :=
  fun args w => (Outcome.returned (some (label ++ " called with args: " ++ sprintV args)), w)

/-- The registry `main` builds: `create`, `remove`, `update`, `delete`, `detail`,
`search`, added in that order to `NewBlueprint()`. -/
def mainBlueprint {σ D : Type} (tbl : Char → Char) (sprintV : D → String) :
    Blueprint σ D String :=
  addAll tbl NewBlueprint
    [("create", predefined "Create" sprintV), ("remove", predefined "Remove" sprintV),
     ("update", predefined "Update" sprintV), ("delete", predefined "Delete" sprintV),
     ("detail", predefined "Detail" sprintV), ("search", predefined "Search" sprintV)]

/-- A sample method: counts one invocation in the world and returns `"one"`. -/
def pingOne : Method Nat (List (String × String)) String :=
  fun _ w => (Outcome.returned (some "one"), w + 1)

/-- A sample method: counts ten in the world and returns `"two"`. -/
def pingTwo : Method Nat (List (String × String)) String :=
  fun _ w => (Outcome.returned (some "two"), w + 10)

/-- A sample method that always fails: `panic("boom")`. -/
def boom : Method Nat (List (String × String)) String :=
  fun _ w => (Outcome.panicked (some "boom"), w)

/-- The rendering `%v` of the empty and the nil `Dict`, `map[]`, used for every bag
of the sample registry. -/
def sprintEmpty : List (String × String) → String :=
  fun _ => "map[]"

/-! ## The bearer-token middleware of `web_gin/main.go` -/

/-- The values stored in a `gin.H` in this program: strings and nested `gin.H`. -/
inductive JSONValue where
  | str (s : String)
  | obj (fields : List (String × JSONValue))

/-- Go `gin.H`, a map literal: its entries, with distinct keys. -/
abbrev H := List (String × JSONValue)

/-- The `secrets` store. -/
def secrets : H :=
  [("token1", JSONValue.obj [("user", JSONValue.str "foo"),
      ("email", JSONValue.str "foo@bar.com"), ("phone", JSONValue.str "123433")]),
   ("token2", JSONValue.obj [("user", JSONValue.str "austin"),
      ("email", JSONValue.str "austin@example.com"), ("phone", JSONValue.str "666")]),
   ("token3", JSONValue.obj [("user", JSONValue.str "lena"),
      ("email", JSONValue.str "lena@guapa.com"), ("phone", JSONValue.str "523443")])]

/-- Go `http.StatusUnauthorized`. -/
def StatusUnauthorized : Nat := 401

/-- Go `http.StatusOK`. -/
def StatusOK : Nat := 200

/-- Go `http.StatusInternalServerError`. -/
def StatusInternalServerError : Nat := 500

/-- gin's `abortIndex`, `math.MaxInt8 >> 1`. -/
def abortIndex : Int := 63

/-- The part of `gin.Context` (and of the process) the program touches: the request
headers, the position `index` in the handler chain, the `c.JSON` calls made so far
(status code and object, in order), the `Keys` map, the lines printed by
`fmt.Println`, and, as a ghost field, the chain positions whose handler has been
invoked. -/
structure Context where
  reqHeader : String → String
  index : Int
  written : List (Nat × H)
  keys : String → Option JSONValue
  stdout : List String
  invoked : List Int

/-- Go `c.GetHeader(key)`: the header value, `""` when the header is absent. -/
def Context.GetHeader (c : Context) (key : String) : String :=
  c.reqHeader key

/-- Go `c.JSON(code, obj)`: writes the status code and the serialized object. -/
def Context.JSON (c : Context) (code : Nat) (obj : H) : Context :=
  { c with written := c.written ++ [(code, obj)] }

/-- Go `c.Abort()`: `c.index = abortIndex`. -/
def Context.Abort (c : Context) : Context :=
  { c with index := abortIndex }

/-- Go `c.IsAborted()`: `c.index >= abortIndex`. -/
def Context.IsAborted (c : Context) : Bool :=
  decide (abortIndex ≤ c.index)

/-- Go `c.Set(key, value)`. -/
def Context.Set (c : Context) (key : String) (value : JSONValue) : Context :=
  { c with keys := fun k => if k = key then some value else c.keys k }

/-- Go `c.Get(key)`: the value and whether it exists. -/
def Context.Get (c : Context) (key : String) : Option JSONValue :=
  c.keys key

/-- Go `fmt.Println(s)` for one string: one more line on standard output. -/
def Context.Println (c : Context) (s : String) : Context :=
  { c with stdout := c.stdout ++ [s] }

/-- A `gin.HandlerFunc`. Its first argument is what `c.Next()` does when the
handler calls it. -/
abbrev HandlerFunc := (Context → Context) → Context → Context

/-- The loop of `(*Context).Next`:
`for c.index < len(c.handlers) { c.handlers[c.index](c); c.index++ }`,
over the handlers from position `c.index` on; `n` is `len(c.handlers)`. A handler
that calls `c.Next()` runs `c.index++` and this same loop. -/
def nextLoop (n : Int) : List HandlerFunc → Context → Context
  | [], c => c
  | h :: rest, c =>
    if c.index < n then
      let c1 := h (fun d => nextLoop n rest { d with index := d.index + 1 })
        { c with invoked := c.invoked ++ [c.index] }
      nextLoop n rest { c1 with index := c1.index + 1 }
    else c

/-- Go `(*Context).Next` called by the engine on a context whose chain is `hs`:
`c.index++` and the loop. -/
def Context.Next (hs : List HandlerFunc) (c : Context) : Context :=
  nextLoop hs.length hs { c with index := c.index + 1 }

/-- The context gin hands to the chain for a request with the given headers:
`index = -1`, nothing written, no keys. -/
def newContext (reqHeader : String → String) : Context :=
  { reqHeader := reqHeader, index := -1, written := [], keys := fun _ => none,
    stdout := [], invoked := [] }

/-- Go `strings.HasPrefix`: `len(s) >= len(prefix) && s[:len(prefix)] == prefix`. -/
def HasPrefix (s pre : String) : Bool :=
  decide (pre.data.length ≤ s.data.length) && (s.data.take pre.data.length == pre.data)

/-- Go `strings.TrimPrefix`: `s[len(prefix):]` when `HasPrefix(s, prefix)`, else `s`. -/
def TrimPrefix (s pre : String) : String :=
  if HasPrefix s pre then ⟨s.data.drop pre.data.length⟩ else s

/-- Go `TokenAuthMiddleware`: the handler it returns. -/
def TokenAuthMiddleware : HandlerFunc := fun next c =>
  let authHeader := c.GetHeader "Authorization"
  if authHeader = "" ∨ HasPrefix authHeader "Bearer " = false then
    (c.JSON StatusUnauthorized [("error", JSONValue.str "Unauthorized")]).Abort
  else
    let token := TrimPrefix authHeader "Bearer "
    match secrets.lookup token with
    | some secret => next ((c.Set "secret" secret).Println token)
    | none => (c.JSON StatusUnauthorized [("error", JSONValue.str "Invalid token")]).Abort

/-- The handler of `GET /admin/secrets`. -/
def secretsHandler : HandlerFunc := fun _ c =>
  match c.Get "secret" with
  | some secret => c.JSON StatusOK [("secret", secret)]
  | none => c.JSON StatusInternalServerError [("error", JSONValue.str "No secret found")]

/-- A request whose only header is `Authorization: v` (absent when `v = ""`). -/
def authRequest (v : String) : String → String :=
  fun key => if key = "Authorization" then v else ""

/-! ## Canonicalization lemmas -/

theorem char_le_iff (a b : Char) : a ≤ b ↔ a.toNat ≤ b.toNat := by
  show a.val ≤ b.val ↔ _
  rw [UInt32.le_def]
  rfl

theorem digit_range (c : Char) : (decide ('0' ≤ c) && decide (c ≤ '9')) = c.isDigit := rfl

theorem upper_range (c : Char) : (decide ('A' ≤ c) && decide (c ≤ 'Z')) = c.isUpper := rfl

theorem lower_range (c : Char) : (decide ('a' ≤ c) && decide (c ≤ 'z')) = c.isLower := rfl

theorem perlWord_eq_isAsciiWord (c : Char) : perlWord c = isAsciiWord c := by
  unfold perlWord isAsciiWord Char.isAlpha
  rw [digit_range, upper_range, lower_range]
  cases c.isDigit <;> cases c.isUpper <;> cases c.isLower <;> cases (c == '_') <;> rfl

theorem isDigit_iff (c : Char) : c.isDigit = true ↔ 48 ≤ c.toNat ∧ c.toNat ≤ 57 := by
  unfold Char.isDigit
  rw [Bool.and_eq_true, decide_eq_true_iff, decide_eq_true_iff]
  exact Iff.rfl

theorem isUpper_iff (c : Char) : c.isUpper = true ↔ 65 ≤ c.toNat ∧ c.toNat ≤ 90 := by
  unfold Char.isUpper
  rw [Bool.and_eq_true, decide_eq_true_iff, decide_eq_true_iff]
  exact Iff.rfl

theorem isLower_iff (c : Char) : c.isLower = true ↔ 97 ≤ c.toNat ∧ c.toNat ≤ 122 := by
  unfold Char.isLower
  rw [Bool.and_eq_true, decide_eq_true_iff, decide_eq_true_iff]
  exact Iff.rfl

theorem underscore_iff (c : Char) : (c == '_') = true ↔ c.toNat = 95 := by
  rw [beq_iff_eq]
  constructor
  · rintro rfl; rfl
  · intro h
    apply Char.ext
    apply UInt32.ext
    exact h

theorem isAsciiWord_iff (c : Char) : isAsciiWord c = true ↔
    (65 ≤ c.toNat ∧ c.toNat ≤ 90) ∨ (97 ≤ c.toNat ∧ c.toNat ≤ 122) ∨
      (48 ≤ c.toNat ∧ c.toNat ≤ 57) ∨ c.toNat = 95 := by
  unfold isAsciiWord Char.isAlpha
  simp only [Bool.or_eq_true, isDigit_iff, isUpper_iff, isLower_iff, underscore_iff]
  tauto

theorem isCanonChar_iff (c : Char) : isCanonChar c = true ↔
    (97 ≤ c.toNat ∧ c.toNat ≤ 122) ∨ (48 ≤ c.toNat ∧ c.toNat ≤ 57) ∨ c.toNat = 95 := by
  unfold isCanonChar
  simp only [Bool.or_eq_true, isDigit_iff, isLower_iff, underscore_iff]
  tauto

theorem toNat_ofNat_small (n : Nat) (h : n < 55296) : (Char.ofNat n).toNat = n := by
  unfold Char.ofNat
  rw [dif_pos (Or.inl h)]
  rfl

theorem toLower_toNat (c : Char) :
    c.toLower.toNat = if 65 ≤ c.toNat ∧ c.toNat ≤ 90 then c.toNat + 32 else c.toNat := by
  unfold Char.toLower
  by_cases h : 65 ≤ c.toNat ∧ c.toNat ≤ 90
  · simp only [ge_iff_le, h, and_self, if_true]
    exact toNat_ofNat_small _ (by omega)
  · simp only [ge_iff_le, h, if_false]

theorem toNat_inj {a b : Char} (h : a.toNat = b.toNat) : a = b := by
  apply Char.ext
  apply UInt32.ext
  exact h

theorem runeToLower_of_word (tbl : Char → Char) (c : Char) (h : isAsciiWord c = true) :
    runeToLower tbl c = c.toLower := by
  have hw := (isAsciiWord_iff c).1 h
  unfold runeToLower Char.toLower
  rw [if_pos (by omega)]
  have hc : ('A' ≤ c ∧ c ≤ 'Z') ↔ (c.toNat ≥ 65 ∧ c.toNat ≤ 90) := by
    rw [char_le_iff, char_le_iff]
    exact Iff.rfl
  by_cases hu : c.toNat ≥ 65 ∧ c.toNat ≤ 90
  · rw [if_pos (hc.2 hu)]
    simp only [hu, and_self, if_true]
  · rw [if_neg (fun x => hu (hc.1 x))]
    simp only [hu, if_false]

theorem toLower_canon (c : Char) (h : isAsciiWord c = true) : isCanonChar c.toLower = true := by
  have hw := (isAsciiWord_iff c).1 h
  rw [isCanonChar_iff, toLower_toNat]
  split <;> omega

theorem canon_word (c : Char) (h : isCanonChar c = true) : isAsciiWord c = true := by
  have hw := (isCanonChar_iff c).1 h
  rw [isAsciiWord_iff]
  omega

theorem toLower_of_canon (c : Char) (h : isCanonChar c = true) : c.toLower = c := by
  have hw := (isCanonChar_iff c).1 h
  apply toNat_inj
  rw [toLower_toNat, if_neg (by omega)]

theorem strip_eq_filter (l : List Char) :
    (l.map fun c => if reNotWord c then ("" : String).data else [c]).flatten
      = l.filter isAsciiWord := by
  induction l with
  | nil => rfl
  | cons a t ih =>
    rw [List.map_cons, List.flatten_cons, ih, List.filter_cons]
    unfold reNotWord
    rw [perlWord_eq_isAsciiWord]
    cases isAsciiWord a <;> rfl

theorem map_runeToLower_filter (tbl : Char → Char) (l : List Char) :
    (l.filter isAsciiWord).map (runeToLower tbl) = (l.filter isAsciiWord).map Char.toLower := by
  apply List.map_congr_left
  intro c hc
  exact runeToLower_of_word tbl c (List.mem_filter.1 hc).2

theorem cleanName_eq_specCanonical (tbl : Char → Char) (s : String) :
    cleanName tbl s = specCanonical s := by
  unfold cleanName ToLower ReplaceAllString specCanonical
  simp only [strip_eq_filter, map_runeToLower_filter]

theorem cleanName_data (tbl : Char → Char) (s : String) :
    (cleanName tbl s).data = (s.data.filter isAsciiWord).map Char.toLower := by
  rw [cleanName_eq_specCanonical]
  rfl

theorem cleanName_canon (tbl : Char → Char) (s : String) :
    ∀ c ∈ (cleanName tbl s).data, isCanonChar c = true := by
  intro c hc
  rw [cleanName_data, List.mem_map] at hc
  obtain ⟨a, ha, rfl⟩ := hc
  exact toLower_canon a (List.mem_filter.1 ha).2

theorem cleanName_of_canon (tbl : Char → Char) (s : String)
    (h : ∀ c ∈ s.data, isCanonChar c = true) : cleanName tbl s = s := by
  have hd : (cleanName tbl s).data = s.data := by
    rw [cleanName_data, List.filter_eq_self.2 (fun c hc => canon_word c (h c hc))]
    calc s.data.map Char.toLower = s.data.map id :=
          List.map_congr_left (fun c hc => toLower_of_canon c (h c hc))
      _ = s.data := List.map_id _
  cases s
  cases hs : cleanName tbl _
  rw [hs] at hd
  exact congrArg String.mk hd

theorem cleanName_fixed_iff (tbl : Char → Char) (s : String) :
    cleanName tbl s = s ↔ ∀ c ∈ s.data, isCanonChar c = true := by
  constructor
  · intro h c hc
    rw [← h] at hc
    exact cleanName_canon tbl s c hc
  · exact cleanName_of_canon tbl s

theorem cleanName_idem (tbl : Char → Char) (s : String) :
    cleanName tbl (cleanName tbl s) = cleanName tbl s :=
  cleanName_of_canon tbl _ (cleanName_canon tbl s)

/-! ## Properties of `cleanName` -/

/-- C2: for every input string, `cleanName` is the lowercasing of the subsequence of
its ASCII `[A-Za-z0-9_]` characters, in order, nothing substituted; the result has
only characters of `[a-z0-9_]`, and it is the empty string when the input has no
such character. -/
theorem cleanName_refines_spec (tbl : Char → Char) (s : String) :
    cleanName tbl s = specCanonical s ∧
    (cleanName tbl s).data = (s.data.filter isAsciiWord).map Char.toLower ∧
    (∀ c ∈ (cleanName tbl s).data, isCanonChar c = true) ∧
    ((∀ c ∈ s.data, isAsciiWord c = false) → cleanName tbl s = "") := by
  refine ⟨cleanName_eq_specCanonical tbl s, cleanName_data tbl s, cleanName_canon tbl s, ?_⟩
  intro h
  have hd : (cleanName tbl s).data = [] := by
    rw [cleanName_data, List.map_eq_nil_iff, List.filter_eq_nil_iff]
    intro a ha
    rw [h a ha]
    exact Bool.false_ne_true
  cases hs : cleanName tbl s
  rw [hs] at hd
  exact congrArg String.mk hd

/-- C2, at the input `"-! ?"`, which has no word character. -/
theorem cleanName_refines_spec_witness :
    (∀ c ∈ ("-! ?" : String).data, isAsciiWord c = false) ∧ cleanName id "-! ?" = "" :=
  ⟨by decide, (cleanName_refines_spec id "-! ?").2.2.2 (by decide)⟩

/-- C9, as stated, fails: whatever the case tables, `cleanName("create_method")`
is not `"createmethod"`, because `_` is a word character and is kept. -/
theorem cleanName_example_counterexample :
    ¬ ∃ tbl : Char → Char, cleanName tbl "create_method" = "createmethod" := by
  rintro ⟨tbl, h⟩
  rw [cleanName_eq_specCanonical] at h
  revert h
  decide

/-- C9, amended: `cleanName("Create-Method!") = "createmethod"` and
`cleanName("create_method") = "create_method"`; the two keys differ. -/
theorem cleanName_example (tbl : Char → Char) :
    cleanName tbl "Create-Method!" = "createmethod" ∧
    cleanName tbl "create_method" = "create_method" ∧
    cleanName tbl "Create-Method!" ≠ cleanName tbl "create_method" := by
  rw [cleanName_eq_specCanonical, cleanName_eq_specCanonical]
  decide

/-! ## Registry lemmas -/

theorem methods_AddMethod_self {σ D V : Type} (tbl : Char → Char) (bp : Blueprint σ D V)
    (name : String) (m : Method σ D V) :
    (AddMethod tbl bp name m).methods (cleanName tbl name) = some m := by
  simp [AddMethod]

theorem methods_AddMethod_isSome {σ D V : Type} (tbl : Char → Char) (bp : Blueprint σ D V)
    (name k : String) (m : Method σ D V)
    (h : ((AddMethod tbl bp name m).methods k).isSome = true) :
    k = cleanName tbl name ∨ (bp.methods k).isSome = true := by
  unfold AddMethod at h
  by_cases hk : k = cleanName tbl name
  · exact Or.inl hk
  · right
    simpa [hk] using h

theorem CallMethod_absent {σ D V : Type} (bp : Blueprint σ D V) (name : String) (args : D)
    (w : σ) (h : bp.methods name = none) :
    CallMethod bp name args w = (Outcome.returned (none, some (Errorf name)), w) := by
  unfold CallMethod
  rw [h]

theorem CallMethod_returned {σ D V : Type} (bp : Blueprint σ D V) (name : String)
    (fn : Method σ D V) (args : D) (w w1 : σ) (v : Option V) (h : bp.methods name = some fn)
    (hr : fn args w = (Outcome.returned v, w1)) :
    CallMethod bp name args w = (Outcome.returned (v, none), w1) := by
  unfold CallMethod
  rw [h]
  simp only [hr]

theorem CallMethod_panicked {σ D V : Type} (bp : Blueprint σ D V) (name : String)
    (fn : Method σ D V) (args : D) (w w1 : σ) (cause : Option V)
    (h : bp.methods name = some fn) (hr : fn args w = (Outcome.panicked cause, w1)) :
    CallMethod bp name args w = (Outcome.panicked cause, w1) := by
  unfold CallMethod
  rw [h]
  simp only [hr]

theorem addAll_keys {σ D V : Type} (tbl : Char → Char)
    (regs : List (String × Method σ D V)) :
    ∀ bp : Blueprint σ D V,
      (∀ k, (bp.methods k).isSome = true → cleanName tbl k = k) →
      ∀ k, ((addAll tbl bp regs).methods k).isSome = true → cleanName tbl k = k := by
  induction regs with
  | nil => intro bp h; exact h
  | cons r rest ih =>
    intro bp h
    obtain ⟨name, m⟩ := r
    apply ih
    intro k hk
    rcases methods_AddMethod_isSome tbl bp name k m hk with rfl | hb
    · exact cleanName_idem tbl name
    · exact h k hb

theorem reachable_keys {σ D V : Type} (tbl : Char → Char)
    (regs : List (String × Method σ D V)) (k : String)
    (h : ((addAll tbl (NewBlueprint : Blueprint σ D V) regs).methods k).isSome = true) :
    cleanName tbl k = k := by
  refine addAll_keys tbl regs NewBlueprint ?_ k h
  intro k hk
  simp [NewBlueprint] at hk

/-! ## Properties of the registry -/

/-- C1, on the code: registering under the raw name `"Create"` and dispatching under
the very same raw name does not reach the handler; `CallMethod` looks the name up
as given, finds no key `"Create"` (the key is `"create"`) and returns the
not-found error without running the handler. -/
theorem dispatch_same_raw_name_not_found {σ D V : Type} (tbl : Char → Char)
    (h : Method σ D V) (args : D) (w : σ) :
    cleanName tbl "Create" = cleanName tbl "Create" ∧
    CallMethod (AddMethod tbl NewBlueprint "Create" h) "Create" args w
      = (Outcome.returned (none, some "method Create not found"), w) := by
  refine ⟨rfl, ?_⟩
  have hk : cleanName tbl "Create" = "create" := by
    rw [cleanName_eq_specCanonical]
    decide
  rw [CallMethod_absent]
  · rfl
  · simp only [AddMethod, hk, NewBlueprint]
    rw [if_neg (by decide)]

/-- C3: in every registry state, after `AddMethod(n, h2)` a `CallMethod` under
`cleanName(n)` runs `h2` and returns exactly `(h2(args), nil)`, with the effects of
`h2` alone, whatever handler the key held before. -/
theorem last_registration_wins {σ D V : Type} (tbl : Char → Char) (bp : Blueprint σ D V)
    (n : String) (h2 : Method σ D V) (args : D) (w w1 : σ) (v : Option V)
    (hr : h2 args w = (Outcome.returned v, w1)) :
    CallMethod (AddMethod tbl bp n h2) (cleanName tbl n) args w
      = (Outcome.returned (v, none), w1) :=
  CallMethod_returned _ _ h2 args w w1 v (methods_AddMethod_self tbl bp n h2) hr

/-- C3, at `Register("ping", h1)`, `Register("ping", h2)`, `Dispatch("ping")`: the
result is the one of `h2` and the world shows the effect of `h2` only. -/
theorem last_registration_wins_witness :
    pingTwo [] 0 = (Outcome.returned (some "two"), 10) ∧
    CallMethod (AddMethod id (AddMethod id NewBlueprint "ping" pingOne) "ping" pingTwo)
      (cleanName id "ping") [] 0 = (Outcome.returned (some "two", none), 10) :=
  ⟨rfl, last_registration_wins id (AddMethod id NewBlueprint "ping" pingOne) "ping" pingTwo
    [] 0 10 (some "two") rfl⟩

/-- C4: for a name that is not a key of `methods`, `CallMethod` returns a nil result
and the error `method <name> not found` with the raw name unchanged, and leaves the
world as it was: no registered handler runs. -/
theorem unknown_name_not_found {σ D V : Type} (bp : Blueprint σ D V) (name : String)
    (args : D) (w : σ) (h : bp.methods name = none) :
    CallMethod bp name args w
      = (Outcome.returned (none, some ("method " ++ name ++ " not found")), w) :=
  CallMethod_absent bp name args w h

/-- C4, at `CallMethod("nonexistent", nil)` on the registry built in `main`. -/
theorem unknown_name_not_found_witness :
    (mainBlueprint id sprintEmpty : Blueprint Nat _ _).methods "nonexistent" = none ∧
    CallMethod (mainBlueprint id sprintEmpty) "nonexistent" [] (0 : Nat)
      = (Outcome.returned (none, some "method nonexistent not found"), 0) :=
  ⟨rfl, unknown_name_not_found (mainBlueprint id sprintEmpty) "nonexistent" [] 0 rfl⟩

/-- C8, as stated, fails: with the always-failing `boom` registered, `CallMethod`
ends in the panic of the handler; it returns nothing, so no error value either. -/
theorem handler_panic_counterexample :
    CallMethod (AddMethod id NewBlueprint "boom" boom) "boom" [] 0
        = (Outcome.panicked (some "boom"), 0) ∧
    ¬ ∃ r e, (CallMethod (AddMethod id NewBlueprint "boom" boom) "boom" [] 0).1
        = Outcome.returned (r, e) := by
  have h : CallMethod (AddMethod id NewBlueprint "boom" boom) "boom" [] 0
      = (Outcome.panicked (some "boom"), 0) :=
    CallMethod_panicked _ _ boom [] 0 0 (some "boom") rfl rfl
  refine ⟨h, ?_⟩
  rintro ⟨r, e, hre⟩
  rw [h] at hre
  exact Outcome.noConfusion hre

/-- C8, amended: when the handler of a registered command panics, `CallMethod`
passes the panic on with the same cause and returns no error value; it only reads
the registry, so on the same `Blueprint` a later `CallMethod` to another registered
command whose handler returns yields that command's result. -/
theorem handler_panic_propagates {σ D V : Type} (bp : Blueprint σ D V) (name : String)
    (fn : Method σ D V) (args : D) (w w1 : σ) (cause : Option V)
    (h : bp.methods name = some fn) (hp : fn args w = (Outcome.panicked cause, w1)) :
    CallMethod bp name args w = (Outcome.panicked cause, w1) ∧
    (¬ ∃ r e, (CallMethod bp name args w).1 = Outcome.returned (r, e)) ∧
    ∀ (other : String) (g : Method σ D V) (args2 : D) (v : Option V) (w2 : σ),
      bp.methods other = some g → g args2 w1 = (Outcome.returned v, w2) →
      CallMethod bp other args2 w1 = (Outcome.returned (v, none), w2) := by
  have hc := CallMethod_panicked bp name fn args w w1 cause h hp
  refine ⟨hc, ?_, ?_⟩
  · rintro ⟨r, e, hre⟩
    rw [hc] at hre
    exact Outcome.noConfusion hre
  · intro other g args2 v w2 hg hr
    exact CallMethod_returned bp other g args2 w1 w2 v hg hr

/-- C8 amended, on a registry holding `boom` and `ping`: the call to `boom` panics,
and a following call to `ping` returns `"two"`. -/
theorem handler_panic_propagates_witness :
    CallMethod (AddMethod id (AddMethod id NewBlueprint "ping" pingTwo) "boom" boom)
        "boom" [] 0 = (Outcome.panicked (some "boom"), 0) ∧
    CallMethod (AddMethod id (AddMethod id NewBlueprint "ping" pingTwo) "boom" boom)
        "ping" [] 0 = (Outcome.returned (some "two", none), 10) :=
  have h := handler_panic_propagates
    (AddMethod id (AddMethod id NewBlueprint "ping" pingTwo) "boom" boom)
    "boom" boom [] 0 0 (some "boom") rfl rfl
  ⟨h.1, h.2.2 "ping" pingTwo [] (some "two") 10 rfl rfl⟩

/-- C10: in a `Blueprint` built from `NewBlueprint()` by any finite sequence of
`AddMethod` calls, every key of `methods` is a fixed point of `cleanName` and has
only characters of `[a-z0-9_]`; so for every name with `cleanName(name) ≠ name`,
which are the names with a character outside `[a-z0-9_]`, `CallMethod` returns the
not-found error, whatever was registered. -/
theorem reachable_keys_canonical {σ D V : Type} (tbl : Char → Char)
    (regs : List (String × Method σ D V)) :
    (∀ k, ((addAll tbl (NewBlueprint : Blueprint σ D V) regs).methods k).isSome = true →
      cleanName tbl k = k ∧ ∀ c ∈ k.data, isCanonChar c = true) ∧
    (∀ (name : String) (args : D) (w : σ), cleanName tbl name ≠ name →
      CallMethod (addAll tbl (NewBlueprint : Blueprint σ D V) regs) name args w
        = (Outcome.returned (none, some ("method " ++ name ++ " not found")), w)) ∧
    (∀ name : String, cleanName tbl name ≠ name ↔ ∃ c ∈ name.data, isCanonChar c = false) := by
  refine ⟨?_, ?_, ?_⟩
  · intro k hk
    have hf := reachable_keys tbl regs k hk
    exact ⟨hf, (cleanName_fixed_iff tbl k).1 hf⟩
  · intro name args w hne
    apply CallMethod_absent
    cases hm : (addAll tbl (NewBlueprint : Blueprint σ D V) regs).methods name with
    | none => rfl
    | some fn =>
      exact absurd (reachable_keys tbl regs name (by rw [hm]; rfl)) hne
  · intro name
    rw [Ne, cleanName_fixed_iff]
    constructor
    · intro h
      by_contra hx
      apply h
      intro c hc
      cases hcc : isCanonChar c with
      | true => rfl
      | false => exact absurd ⟨c, hc, hcc⟩ hx
    · rintro ⟨c, hc, hcc⟩ h
      rw [h c hc] at hcc
      exact Bool.noConfusion hcc

/-- C10, on the registry of `main` and the name `"Create"`: it is not a fixed point
of `cleanName`, and the call returns the not-found error. -/
theorem reachable_keys_canonical_witness :
    cleanName id "Create" ≠ "Create" ∧
    CallMethod (mainBlueprint id sprintEmpty) "Create" [] (0 : Nat)
      = (Outcome.returned (none, some "method Create not found"), 0) :=
  ⟨by decide, (reachable_keys_canonical id _).2.1 "Create" [] 0 (by decide)⟩

/-! ## Middleware lemmas -/

theorem HasPrefix_append (pre t : String) : HasPrefix (pre ++ t) pre = true := by
  simp [HasPrefix, String.data_append]

theorem TrimPrefix_append (pre t : String) : TrimPrefix (pre ++ t) pre = t := by
  unfold TrimPrefix
  rw [if_pos (HasPrefix_append pre t)]
  simp [String.data_append]

theorem HasPrefix_empty : HasPrefix "" "Bearer " = false := by decide

theorem nextLoop_stop (n : Int) (hs : List HandlerFunc) (c : Context) (h : n ≤ c.index) :
    nextLoop n hs c = c := by
  cases hs with
  | nil => rfl
  | cons a t =>
    unfold nextLoop
    rw [if_neg (by omega)]

theorem auth_malformed (next : Context → Context) (c : Context)
    (h : c.GetHeader "Authorization" = "" ∨
      HasPrefix (c.GetHeader "Authorization") "Bearer " = false) :
    TokenAuthMiddleware next c
      = (c.JSON StatusUnauthorized [("error", JSONValue.str "Unauthorized")]).Abort := by
  unfold TokenAuthMiddleware
  simp only [h, if_true]

theorem auth_unknown (next : Context → Context) (c : Context)
    (hp : HasPrefix (c.GetHeader "Authorization") "Bearer " = true)
    (hk : secrets.lookup (TrimPrefix (c.GetHeader "Authorization") "Bearer ") = none) :
    TokenAuthMiddleware next c
      = (c.JSON StatusUnauthorized [("error", JSONValue.str "Invalid token")]).Abort := by
  have hne : ¬ (c.GetHeader "Authorization" = "" ∨
      HasPrefix (c.GetHeader "Authorization") "Bearer " = false) := by
    rintro (h | h)
    · rw [h, HasPrefix_empty] at hp
      exact Bool.noConfusion hp
    · rw [h] at hp
      exact Bool.noConfusion hp
  unfold TokenAuthMiddleware
  simp only [hne, if_false, hk]

theorem auth_known (next : Context → Context) (c : Context) (t : String) (secret : JSONValue)
    (hh : c.GetHeader "Authorization" = "Bearer " ++ t)
    (hk : secrets.lookup t = some secret) :
    TokenAuthMiddleware next c = next ((c.Set "secret" secret).Println t) := by
  have hne : ¬ (c.GetHeader "Authorization" = "" ∨
      HasPrefix (c.GetHeader "Authorization") "Bearer " = false) := by
    rw [hh, HasPrefix_append]
    rintro (h | h)
    · have h7 := congrArg String.length h
      rw [String.length_append] at h7
      have h8 : ("Bearer " : String).length = 7 := by decide
      have h9 : ("" : String).length = 0 := by decide
      omega
    · exact Bool.noConfusion h
  unfold TokenAuthMiddleware
  simp only [hne, if_false]
  simp only [hh, TrimPrefix_append, hk]

/-- What the chain leaves when its first handler, the middleware, writes `401` with `body`
and aborts: nothing else runs. -/
theorem Next_auth_abort (rest : List HandlerFunc) (hdr : String → String) (body : H)
    (hlen : (TokenAuthMiddleware :: rest).length < 63)
    (hT : ∀ next (c : Context), c.reqHeader = hdr →
      TokenAuthMiddleware next c = (c.JSON StatusUnauthorized body).Abort) :
    Context.Next (TokenAuthMiddleware :: rest) (newContext hdr)
      = { reqHeader := hdr, index := 64, written := [(401, body)], keys := fun _ => none,
          stdout := [], invoked := [0] } := by
  have hl : ((TokenAuthMiddleware :: rest).length : Int) < 63 := by exact_mod_cast hlen
  unfold Context.Next
  unfold nextLoop
  have h0 : (newContext hdr).index + 1 = 0 := rfl
  simp only [h0]
  rw [if_pos (by simp only [List.length_cons] at hl ⊢; omega)]
  rw [hT _ _ rfl]
  rw [nextLoop_stop]
  · rfl
  · show ((TokenAuthMiddleware :: rest).length : Int) ≤ abortIndex + 1
    unfold abortIndex
    omega

theorem secrets_step (n : Int) (c : Context) (secret : JSONValue)
    (hk : c.keys "secret" = some secret) (hi : c.index < n) (hn : n ≤ c.index + 1) :
    nextLoop n [secretsHandler] c
      = { c with index := c.index + 1, written := c.written ++ [(200, [("secret", secret)])],
                 invoked := c.invoked ++ [c.index] } := by
  unfold nextLoop
  rw [if_pos hi]
  simp only [secretsHandler, Context.Get, hk]
  rw [nextLoop_stop _ _ _ hn]
  rfl

/-- What the chain `[TokenAuthMiddleware, /admin/secrets handler]` leaves for a known token. -/
theorem Next_auth_pass (hdr : String → String) (t : String) (secret : JSONValue)
    (hh : hdr "Authorization" = "Bearer " ++ t) (hk : secrets.lookup t = some secret) :
    Context.Next [TokenAuthMiddleware, secretsHandler] (newContext hdr)
      = { reqHeader := hdr, index := 3, written := [(200, [("secret", secret)])],
          keys := fun k => if k = "secret" then some secret else none,
          stdout := [t], invoked := [0, 1] } := by
  have hg : ∀ next (c : Context), c.reqHeader = hdr →
      TokenAuthMiddleware next c = next ((c.Set "secret" secret).Println t) := by
    intro next c hc
    refine auth_known next c t secret ?_ hk
    show c.reqHeader "Authorization" = _
    rw [hc, hh]
  unfold Context.Next
  unfold nextLoop
  have h0 : (newContext hdr).index + 1 = 0 := rfl
  have h2 : (([TokenAuthMiddleware, secretsHandler] : List HandlerFunc).length : Int) = 2 := rfl
  simp only [h0, h2]
  rw [if_pos (by omega)]
  rw [hg _ _ rfl]
  have e1 : nextLoop 2 [secretsHandler]
      (Context.mk hdr 1 [] (fun k => if k = "secret" then some secret else none) [t] [0])
      = Context.mk hdr 2 [(200, [("secret", secret)])]
          (fun k => if k = "secret" then some secret else none) [t] [0, 1] :=
    secrets_step 2 (Context.mk hdr 1 [] _ [t] [0]) secret
      (by show (if "secret" = "secret" then some secret else none) = some secret
          exact if_pos rfl)
      (by show (1 : Int) < 2; omega) (by show (2 : Int) ≤ 1 + 1; omega)
  show nextLoop 2 [secretsHandler]
      { (nextLoop 2 [secretsHandler] (Context.mk hdr 1 []
          (fun k => if k = "secret" then some secret else none) [t] [0])) with
        index := (nextLoop 2 [secretsHandler] (Context.mk hdr 1 []
          (fun k => if k = "secret" then some secret else none) [t] [0])).index + 1 } = _
  rw [e1]
  exact nextLoop_stop 2 _ _ (by show (2 : Int) ≤ 2 + 1; omega)

theorem Next_malformed (rest : List HandlerFunc) (hdr : String → String)
    (hlen : (TokenAuthMiddleware :: rest).length < 63)
    (h : hdr "Authorization" = "" ∨ HasPrefix (hdr "Authorization") "Bearer " = false) :
    Context.Next (TokenAuthMiddleware :: rest) (newContext hdr)
      = { reqHeader := hdr, index := 64,
          written := [(401, [("error", JSONValue.str "Unauthorized")])],
          keys := fun _ => none, stdout := [], invoked := [0] } := by
  apply Next_auth_abort rest hdr _ hlen
  intro next c hc
  apply auth_malformed
  show c.reqHeader "Authorization" = "" ∨ HasPrefix (c.reqHeader "Authorization") "Bearer " = false
  rw [hc]
  exact h

theorem Next_unknown (rest : List HandlerFunc) (hdr : String → String)
    (hlen : (TokenAuthMiddleware :: rest).length < 63)
    (hp : HasPrefix (hdr "Authorization") "Bearer " = true)
    (hk : secrets.lookup (TrimPrefix (hdr "Authorization") "Bearer ") = none) :
    Context.Next (TokenAuthMiddleware :: rest) (newContext hdr)
      = { reqHeader := hdr, index := 64,
          written := [(401, [("error", JSONValue.str "Invalid token")])],
          keys := fun _ => none, stdout := [], invoked := [0] } := by
  apply Next_auth_abort rest hdr _ hlen
  intro next c hc
  apply auth_unknown
  · show HasPrefix (c.reqHeader "Authorization") "Bearer " = true
    rw [hc]
    exact hp
  · show secrets.lookup (TrimPrefix (c.reqHeader "Authorization") "Bearer ") = none
    rw [hc]
    exact hk

theorem reject_bodies_differ :
    ([(401, [("error", JSONValue.str "Unauthorized")])] : List (Nat × H))
      ≠ [(401, [("error", JSONValue.str "Invalid token")])] := by
  simp

/-! ## Properties of the token middleware -/

/-- C5: when the Authorization header is empty, or lacks the exact prefix
`"Bearer "`, or its remainder is not exactly a key of `secrets`, the middleware answers
401 and aborts without calling `Next`: of the chain only the middleware is invoked, no
later handler, and no `"secret"` is bound. -/
theorem auth_rejects (hdr : String → String) (rest : List HandlerFunc)
    (hlen : (TokenAuthMiddleware :: rest).length < 63)
    (hrej : hdr "Authorization" = "" ∨ HasPrefix (hdr "Authorization") "Bearer " = false ∨
      secrets.lookup (TrimPrefix (hdr "Authorization") "Bearer ") = none) :
    (∃ body, ∀ (next : Context → Context) (c : Context), c.reqHeader = hdr →
      TokenAuthMiddleware next c = (c.JSON 401 body).Abort) ∧
    (∃ body, (Context.Next (TokenAuthMiddleware :: rest) (newContext hdr)).written
      = [(401, body)]) ∧
    (Context.Next (TokenAuthMiddleware :: rest) (newContext hdr)).IsAborted = true ∧
    (Context.Next (TokenAuthMiddleware :: rest) (newContext hdr)).invoked = [0] ∧
    (Context.Next (TokenAuthMiddleware :: rest) (newContext hdr)).Get "secret" = none := by
  by_cases hm : hdr "Authorization" = "" ∨ HasPrefix (hdr "Authorization") "Bearer " = false
  · refine ⟨⟨[("error", JSONValue.str "Unauthorized")], ?_⟩, ?_⟩
    · intro next c hc
      apply auth_malformed
      show c.reqHeader "Authorization" = "" ∨
        HasPrefix (c.reqHeader "Authorization") "Bearer " = false
      rw [hc]
      exact hm
    · rw [Next_malformed rest hdr hlen hm]
      exact ⟨⟨_, rfl⟩, rfl, rfl, rfl⟩
  · have hp : HasPrefix (hdr "Authorization") "Bearer " = true := by
      cases hx : HasPrefix (hdr "Authorization") "Bearer " with
      | true => rfl
      | false => exact absurd (Or.inr hx) hm
    have hk : secrets.lookup (TrimPrefix (hdr "Authorization") "Bearer ") = none := by
      rcases hrej with h | h | h
      · exact absurd (Or.inl h) hm
      · exact absurd (Or.inr h) hm
      · exact h
    refine ⟨⟨[("error", JSONValue.str "Invalid token")], ?_⟩, ?_⟩
    · intro next c hc
      apply auth_unknown
      · show HasPrefix (c.reqHeader "Authorization") "Bearer " = true
        rw [hc]
        exact hp
      · show secrets.lookup (TrimPrefix (c.reqHeader "Authorization") "Bearer ") = none
        rw [hc]
        exact hk
    · rw [Next_unknown rest hdr hlen hp hk]
      exact ⟨⟨_, rfl⟩, rfl, rfl, rfl⟩

/-- C5, at the header `Bearer TOKEN1` (the key is `token1`, the match is
case-sensitive) in front of the `/admin/secrets` handler: only the middleware runs. -/
theorem auth_rejects_witness :
    secrets.lookup (TrimPrefix (authRequest "Bearer TOKEN1" "Authorization") "Bearer ") = none ∧
    (Context.Next [TokenAuthMiddleware, secretsHandler]
      (newContext (authRequest "Bearer TOKEN1"))).invoked = [0] :=
  ⟨rfl, (auth_rejects (authRequest "Bearer TOKEN1") [secretsHandler] (by decide)
    (Or.inr (Or.inr rfl))).2.2.2.1⟩

/-- C6: for every key `t` of `secrets`, on the header `"Bearer " ++ t` the middleware
writes nothing and does not abort; it binds exactly `secrets[t]` under `"secret"`
and calls `Next`, and the `/admin/secrets` handler behind it answers 200 with that
identity. -/
theorem auth_accepts (hdr : String → String) (t : String) (secret : JSONValue)
    (hh : hdr "Authorization" = "Bearer " ++ t) (hk : secrets.lookup t = some secret) :
    (∀ (next : Context → Context) (c : Context), c.reqHeader = hdr →
      TokenAuthMiddleware next c = next ((c.Set "secret" secret).Println t)) ∧
    (Context.Next [TokenAuthMiddleware, secretsHandler] (newContext hdr)).written
      = [(200, [("secret", secret)])] ∧
    (Context.Next [TokenAuthMiddleware, secretsHandler] (newContext hdr)).IsAborted = false ∧
    (Context.Next [TokenAuthMiddleware, secretsHandler] (newContext hdr)).Get "secret"
      = some secret ∧
    (Context.Next [TokenAuthMiddleware, secretsHandler] (newContext hdr)).invoked = [0, 1] := by
  refine ⟨?_, ?_⟩
  · intro next c hc
    refine auth_known next c t secret ?_ hk
    show c.reqHeader "Authorization" = _
    rw [hc, hh]
  · rw [Next_auth_pass hdr t secret hh hk]
    refine ⟨rfl, rfl, ?_, rfl⟩
    show (if "secret" = "secret" then some secret else none) = some secret
    exact if_pos rfl

/-- C6, at `Bearer token1`: the handler answers 200 with the record whose `user`
is `"foo"`. -/
theorem auth_accepts_witness :
    (Context.Next [TokenAuthMiddleware, secretsHandler]
      (newContext (authRequest "Bearer token1"))).written
      = [(200, [("secret", JSONValue.obj [("user", JSONValue.str "foo"),
          ("email", JSONValue.str "foo@bar.com"), ("phone", JSONValue.str "123433")])])] :=
  (auth_accepts (authRequest "Bearer token1") "token1" _ rfl rfl).2.1

/-- C7, as stated, fails: a request without Authorization header and a request with
`Bearer nope` get different response bodies. -/
theorem auth_responses_counterexample :
    (Context.Next [TokenAuthMiddleware, secretsHandler] (newContext (authRequest ""))).written
      ≠ (Context.Next [TokenAuthMiddleware, secretsHandler]
          (newContext (authRequest "Bearer nope"))).written := by
  rw [Next_malformed [secretsHandler] (authRequest "") (by decide) (Or.inl rfl),
    Next_unknown [secretsHandler] (authRequest "Bearer nope") (by decide) rfl rfl]
  exact reject_bodies_differ

/-- C7, amended: a request with an empty or non-`"Bearer "` header and a request with
a well-formed `"Bearer t"` header whose token is not in `secrets` both get status
401 and both abort the chain; the body is `{"error": "Unauthorized"}` for the first
and `{"error": "Invalid token"}` for the second. -/
theorem auth_rejections_same_status (hdr1 hdr2 : String → String) (rest : List HandlerFunc)
    (hlen : (TokenAuthMiddleware :: rest).length < 63)
    (h1 : hdr1 "Authorization" = "" ∨ HasPrefix (hdr1 "Authorization") "Bearer " = false)
    (h2 : HasPrefix (hdr2 "Authorization") "Bearer " = true)
    (hk : secrets.lookup (TrimPrefix (hdr2 "Authorization") "Bearer ") = none) :
    (Context.Next (TokenAuthMiddleware :: rest) (newContext hdr1)).written
      = [(401, [("error", JSONValue.str "Unauthorized")])] ∧
    (Context.Next (TokenAuthMiddleware :: rest) (newContext hdr2)).written
      = [(401, [("error", JSONValue.str "Invalid token")])] ∧
    (Context.Next (TokenAuthMiddleware :: rest) (newContext hdr1)).written.map Prod.fst
      = (Context.Next (TokenAuthMiddleware :: rest) (newContext hdr2)).written.map Prod.fst ∧
    (Context.Next (TokenAuthMiddleware :: rest) (newContext hdr1)).IsAborted = true ∧
    (Context.Next (TokenAuthMiddleware :: rest) (newContext hdr2)).IsAborted = true := by
  rw [Next_malformed rest hdr1 hlen h1, Next_unknown rest hdr2 hlen h2 hk]
  exact ⟨rfl, rfl, rfl, rfl, rfl⟩

/-- C7 amended, at no header against `Bearer nope`. -/
theorem auth_rejections_same_status_witness :
    (Context.Next [TokenAuthMiddleware, secretsHandler] (newContext (authRequest ""))).written
      = [(401, [("error", JSONValue.str "Unauthorized")])] ∧
    (Context.Next [TokenAuthMiddleware, secretsHandler]
      (newContext (authRequest "Bearer nope"))).written
      = [(401, [("error", JSONValue.str "Invalid token")])] :=
  have h := auth_rejections_same_status (authRequest "") (authRequest "Bearer nope")
    [secretsHandler] (by decide) (Or.inl rfl) rfl rfl
  ⟨h.1, h.2.1⟩

end GoLearn
